import Mathlib

/-!
Verification of the DeepReal audio-driven visual synchronization engine.

Shallow embedding of:
- the viseme mapper (`applyLipSyncEffect` in the lip-sync module and the
  bucketed amplitude-to-mouth-position rule in `simulateLipSync`),
- the frame compositor's per-pixel rule,
- the audio feature extractor (`processVideoFrames` amplitude window),
- the frame scheduler's frame count and the `simulateLipSync` animate loop,
- the recording sink (`ondataavailable` / `onstop`),
- the PCM/WAV encoder (`CoquiTTS.audioBufferToWav`) and the WAV decoder as
  described by the specification (no decoder exists in the source).

JavaScript floating-point arithmetic is modelled by exact rational
arithmetic (`ℚ`); `Math.floor` / `Math.round` / truncation-to-integer are
modelled by `Int.floor` / `round` / truncation toward zero over `ℚ`.
-/

namespace DeepReal

/-! ## Viseme mapper -/

/-- Lip sync profile, from `type LipSyncProfile` in the lip-sync module. -/
inductive LipSyncProfile where
  | default
  | subtle
  | exaggerated
  | realistic
deriving DecidableEq, Repr

/-- Profile intensity multiplier, from `applyLipSyncEffect`:
`profile === 'subtle' ? 0.5 : profile === 'exaggerated' ? 2.0 :
 profile === 'realistic' ? 1.2 : 1.0`. -/
def intensity : LipSyncProfile → ℚ
  | .subtle => 0.5
  | .exaggerated => 2.0
  | .realistic => 1.2
  | .default => 1.0

/-- `const normalizedAmplitude = Math.min(1, amplitude * 5)` from
`applyLipSyncEffect`. -/
def normalizedAmplitude (amplitude : ℚ) : ℚ :=
  min 1 (amplitude * 5)

/-- `const effectiveAmplitude = normalizedAmplitude * intensity` from
`applyLipSyncEffect`. -/
def effectiveAmplitude (amplitude : ℚ) (profile : LipSyncProfile) : ℚ :=
  normalizedAmplitude amplitude * intensity profile

/-- Discrete mouth states, from the `mouthPositions` array in
`simulateLipSync` (media.ts). -/
inductive MouthState where
  | closed
  | slightly
  | medium
  | wide
deriving DecidableEq, Repr

/-- Openness rank of a mouth state: `closed < slightly < medium < wide`.
The source stores a vertical-offset weight `y ∈ {0, 2, 4, 6}` with the same
ordering. -/
def mouthStateRank : MouthState → ℕ
  | .closed => 0
  | .slightly => 1
  | .medium => 2
  | .wide => 3

/-- Bucketed amplitude-to-mouth-position rule from `simulateLipSync`
(media.ts): `amplitude < 40 → closed; < 100 → slightly; < 160 → medium;
else wide`. -/
def mouthPositionFor (amplitude : ℚ) : MouthState :=
  if amplitude < 40 then .closed
  else if amplitude < 100 then .slightly
  else if amplitude < 160 then .medium
  else .wide

/-! ## Frame compositor -/

/-- One RGBA pixel of canvas image data; channel values are the numbers the
source reads out of `mouthData.data`. -/
structure Pixel where
  r : ℚ
  g : ℚ
  b : ℚ
  a : ℚ
deriving DecidableEq, Repr

/-- `Math.sqrt dsq < r` for `dsq ≥ 0`, expressed without square roots:
the square root of `dsq` is below `r` iff `r` is positive and `dsq < r²`. -/
def sqrtLt (dsq r : ℚ) : Prop :=
  0 < r ∧ dsq < r * r

instance (dsq r : ℚ) : Decidable (sqrtLt dsq r) :=
  inferInstanceAs (Decidable (_ ∧ _))

/-- The per-pixel rule of `applyLipSyncEffect`: for a pixel at `(x, y)`
inside the mouth region of size `mouthWidth × mouthHeight`,
with `centerX = mouthWidth / 2`, `centerY = mouthHeight / 2` and
`distanceFromCenter = Math.sqrt((x-centerX)² + (y-centerY)²)`:
if `distanceFromCenter < mouthHeight * 0.5` then
  if `distanceFromCenter < mouthHeight * 0.2 * openFactor` darken all
  channels (`Math.max(0, c * 0.5)`), else if
  `y > centerY - effectiveAmplitude * 10 && y < centerY + effectiveAmplitude * 10`
  set `r ← Math.min(255, r * 1.2)`, `g,b ← Math.max(0, c * 0.8)`;
otherwise the pixel is unchanged. The alpha channel is never written. -/
def lipSyncPixel (mouthWidth mouthHeight : ℕ) (openFactor effectiveAmp : ℚ)
    (x y : ℕ) (p : Pixel) : Pixel :=
  let centerX : ℚ := (mouthWidth : ℚ) / 2
  let centerY : ℚ := (mouthHeight : ℚ) / 2
  let dsq : ℚ := ((x : ℚ) - centerX) * ((x : ℚ) - centerX) +
    ((y : ℚ) - centerY) * ((y : ℚ) - centerY)
  if sqrtLt dsq ((mouthHeight : ℚ) * 0.5) then
    if sqrtLt dsq ((mouthHeight : ℚ) * 0.2 * openFactor) then
      ⟨max 0 (p.r * 0.5), max 0 (p.g * 0.5), max 0 (p.b * 0.5), p.a⟩
    else if centerY - effectiveAmp * 10 < (y : ℚ) ∧
        (y : ℚ) < centerY + effectiveAmp * 10 then
      ⟨min 255 (p.r * 1.2), max 0 (p.g * 0.8), max 0 (p.b * 0.8), p.a⟩
    else p
  else p

/-- Clamp a channel value to `[0, 255]`. -/
def clamp255 (q : ℚ) : ℚ :=
  min 255 (max 0 q)

/-- The compositor pixel rule exactly as the claim states it: same distance
and row conditions as `lipSyncPixel`, but every channel result clamped to
`[0, 255]` on both sides. Stated from the claim's words, for comparison
with the source rule. -/
def lipSyncPixelClaim (mouthWidth mouthHeight : ℕ) (openFactor effectiveAmp : ℚ)
    (x y : ℕ) (p : Pixel) : Pixel :=
  let centerX : ℚ := (mouthWidth : ℚ) / 2
  let centerY : ℚ := (mouthHeight : ℚ) / 2
  let dsq : ℚ := ((x : ℚ) - centerX) * ((x : ℚ) - centerX) +
    ((y : ℚ) - centerY) * ((y : ℚ) - centerY)
  if sqrtLt dsq ((mouthHeight : ℚ) * 0.5) then
    if sqrtLt dsq ((mouthHeight : ℚ) * 0.2 * openFactor) then
      ⟨clamp255 (p.r * 0.5), clamp255 (p.g * 0.5), clamp255 (p.b * 0.5), p.a⟩
    else if centerY - effectiveAmp * 10 < (y : ℚ) ∧
        (y : ℚ) < centerY + effectiveAmp * 10 then
      ⟨clamp255 (p.r * 1.2), clamp255 (p.g * 0.8), clamp255 (p.b * 0.8), p.a⟩
    else p
  else p

/-- All four channels of a pixel lie in `[0, 255]` (true of any pixel read
from canvas `ImageData`, whose storage is unsigned bytes). -/
def pixelInRange (p : Pixel) : Prop :=
  (0 ≤ p.r ∧ p.r ≤ 255) ∧ (0 ≤ p.g ∧ p.g ≤ 255) ∧
    (0 ≤ p.b ∧ p.b ≤ 255) ∧ (0 ≤ p.a ∧ p.a ≤ 255)

instance (p : Pixel) : Decidable (pixelInRange p) :=
  inferInstanceAs (Decidable (_ ∧ _))

/-! ## PCM/WAV codec -/

/-- The four ASCII byte values written by `writeString(view, 0, 'RIFF')`. -/
def riffMarker : List ℕ := [82, 73, 70, 70]

/-- ASCII bytes of the `'WAVE'` marker. -/
def waveMarker : List ℕ := [87, 65, 86, 69]

/-- ASCII bytes of the `'fmt '` marker. -/
def fmtMarker : List ℕ := [102, 109, 116, 32]

/-- ASCII bytes of the `'data'` marker. -/
def dataMarker : List ℕ := [100, 97, 116, 97]

/-- The two bytes stored by `DataView.setUint16(·, n, true)`:
little-endian, value taken modulo `2^16`. -/
def u16le (n : ℕ) : List ℕ :=
  [n % 256, n / 256 % 256]

/-- The four bytes stored by `DataView.setUint32(·, n, true)`:
little-endian, value taken modulo `2^32`. -/
def u32le (n : ℕ) : List ℕ :=
  [n % 256, n / 256 % 256, n / 65536 % 256, n / 16777216 % 256]

/-- JavaScript number-to-integer conversion (`ToIntegerOrInfinity`, used by
`DataView.setInt16`): truncation toward zero. -/
def jsTrunc (q : ℚ) : ℤ :=
  if q < 0 then ⌈q⌉ else ⌊q⌋

/-- The quantized integer written for one sample by `audioBufferToWav`:
`const sample = Math.max(-1, Math.min(1, buffer[i])) * volume` with
`volume = 0.9`, then
`const sample16bit = sample < 0 ? sample * 0x8000 : sample * 0x7FFF`,
converted to an integer by `setInt16`. -/
def quantizeSample (s : ℚ) : ℤ :=
  let sample : ℚ := max (-1) (min 1 s) * 0.9
  jsTrunc (if sample < 0 then sample * 0x8000 else sample * 0x7FFF)

/-- The two bytes stored by `DataView.setInt16(·, v, true)` for an integer
`v`: the value modulo `2^16`, little-endian. -/
def int16leBytes (v : ℤ) : List ℕ :=
  let m : ℕ := (v % 65536).toNat
  [m % 256, m / 256]

/-- `CoquiTTS.audioBufferToWav`. `buffer` is `getChannelData(0)` (length
`samples`). The writes of the source are at consecutive disjoint offsets
0,4,8,12,16,20,22,24,28,32,34,36,40 and then `44 + i*2` for `i < samples`,
so the produced `ArrayBuffer` is their concatenation; the bytes between
`44 + samples*2` and `44 + dataSize` are never written and keep the zero
the `ArrayBuffer` was initialized with (the loop writes only the `samples`
channel-0 values even when `numChannels > 1`). Faithful for
`numChannels ≥ 1`; for `numChannels = 0` the source loop would write past
the end of the buffer and throw. -/
def audioBufferToWav (numChannels sampleRate : ℕ) (buffer : List ℚ) : List ℕ :=
  let bytesPerSample : ℕ := 16 / 8
  let blockAlign : ℕ := numChannels * bytesPerSample
  let samples : ℕ := buffer.length
  let dataSize : ℕ := samples * blockAlign
  riffMarker ++                                -- writeString(view, 0, 'RIFF')
  u32le (36 + dataSize) ++                     -- setUint32(4, 36 + dataSize)
  waveMarker ++                                -- writeString(view, 8, 'WAVE')
  fmtMarker ++                                 -- writeString(view, 12, 'fmt ')
  u32le 16 ++                                  -- setUint32(16, 16)
  u16le 1 ++                                   -- setUint16(20, format)
  u16le numChannels ++                         -- setUint16(22, numChannels)
  u32le sampleRate ++                          -- setUint32(24, sampleRate)
  u32le (sampleRate * blockAlign) ++           -- setUint32(28, byte rate)
  u16le blockAlign ++                          -- setUint16(32, blockAlign)
  u16le 16 ++                                  -- setUint16(34, bitDepth)
  dataMarker ++                                -- writeString(view, 36, 'data')
  u32le dataSize ++                            -- setUint32(40, dataSize)
  (buffer.map fun s => int16leBytes (quantizeSample s)).flatten ++
  List.replicate (dataSize - samples * 2) 0

/-- The encoder's output as claim C4 states it: the same §4.6 header, but
followed by `N * numChannels` little-endian int16 sample slots, the slot
for each channel of frame `i` holding the quantized sample `i`. Stated
from the claim's words, for comparison with `audioBufferToWav`. -/
def wavBytesClaim (numChannels sampleRate : ℕ) (buffer : List ℚ) : List ℕ :=
  let samples : ℕ := buffer.length
  let dataSize : ℕ := samples * numChannels * 2
  riffMarker ++ u32le (36 + dataSize) ++ waveMarker ++ fmtMarker ++
  u32le 16 ++ u16le 1 ++ u16le numChannels ++ u32le sampleRate ++
  u32le (sampleRate * numChannels * 2) ++ u16le (numChannels * 2) ++
  u16le 16 ++ dataMarker ++ u32le dataSize ++
  ((List.range (samples * numChannels)).map fun k =>
    int16leBytes (quantizeSample (buffer.getD (k / numChannels) 0))).flatten

/-- The §4.6 header table, one append per table row, stated from the spec's
byte-layout table for comparison with the header `audioBufferToWav`
produces. -/
def wavHeaderTable (numChannels sampleRate n : ℕ) : List ℕ :=
  riffMarker ++ u32le (36 + n * numChannels * 2) ++ waveMarker ++ fmtMarker ++
  u32le 16 ++ u16le 1 ++ u16le numChannels ++ u32le sampleRate ++
  u32le (sampleRate * numChannels * 2) ++ u16le (numChannels * 2) ++
  u16le 16 ++ dataMarker ++ u32le (n * numChannels * 2)

/-- Read back a little-endian u16 at byte offset `off`. -/
def readU16 (bs : List ℕ) (off : ℕ) : ℕ :=
  bs.getD off 0 + 256 * bs.getD (off + 1) 0

/-- Read back a little-endian u32 at byte offset `off`. -/
def readU32 (bs : List ℕ) (off : ℕ) : ℕ :=
  bs.getD off 0 + 256 * bs.getD (off + 1) 0 +
    65536 * bs.getD (off + 2) 0 + 16777216 * bs.getD (off + 3) 0

/-- Reinterpret a u16 value as a signed 16-bit integer. -/
def toInt16 (m : ℕ) : ℤ :=
  if m < 32768 then (m : ℤ) else (m : ℤ) - 65536

/-- Modelled from the spec: the decoder's per-sample reconstruction — no
decoder exists in the source; the spec says float samples are rebuilt "by
dividing by `0x8000` or `0x7FFF` symmetric to the encode branch", i.e.
negative int16 values are divided by `0x8000` and non-negative ones by
`0x7FFF`. -/
def dequantizeSample (v : ℤ) : ℚ :=
  if v < 0 then (v : ℚ) / 0x8000 else (v : ℚ) / 0x7FFF

/-- Modelled from the spec: parse a PCM byte stream as consecutive
little-endian int16 samples and reconstruct floats; a trailing odd byte is
ignored. Part of the spec-modelled decoder. -/
def parsePcm : List ℕ → List ℚ
  | b0 :: b1 :: rest => dequantizeSample (toInt16 (b0 + 256 * b1)) :: parsePcm rest
  | _ => []

/-- Modelled from the spec: the WAV decoder — absent from the source. Per
the spec it reads the header fields, validates the `"RIFF"` / `"WAVE"` /
`"fmt "` / `"data"` markers, and reconstructs float samples symmetric to
the encode branch; the data chunk length is taken from the
`Subchunk2Size` field at offset 40. -/
def wavDecode (bs : List ℕ) : Option (List ℚ) :=
  if bs.take 4 = riffMarker ∧ (bs.drop 8).take 4 = waveMarker ∧
      (bs.drop 12).take 4 = fmtMarker ∧ (bs.drop 36).take 4 = dataMarker then
    some (parsePcm ((bs.drop 44).take (readU32 bs 40)))
  else
    none

/-! ## Audio feature extractor -/

/-- `const samplesPerFrame = Math.floor(sampleRate / frameRate)` from
`processVideoFrames` (floor of the float quotient is natural-number
division for natural inputs). -/
def samplesPerFrame (sampleRate frameRate : ℕ) : ℕ :=
  sampleRate / frameRate

/-- `const audioSampleIndex = Math.floor(audioPosition * sampleRate)` with
`audioPosition = currentFrame / frameRate`, from `processVideoFrames`:
`⌊(i / F) * sampleRate⌋ = (i * sampleRate) / F` in natural-number
division. -/
def audioSampleIndex (i sampleRate frameRate : ℕ) : ℕ :=
  i * sampleRate / frameRate

/-- The per-frame amplitude loop of `processVideoFrames`:
`let amplitude = 0; for (i = 0; i < samplesPerFrame; i++) { const index =
audioSampleIndex + i; if (index < channelData.length) amplitude +=
Math.abs(channelData[index]); } amplitude /= samplesPerFrame;`. -/
def frameAmplitude (channelData : List ℚ) (sampleRate frameRate i : ℕ) : ℚ :=
  let start := audioSampleIndex i sampleRate frameRate
  let spf := samplesPerFrame sampleRate frameRate
  ((List.range spf).foldl
    (fun amplitude j =>
      let index := start + j
      if index < channelData.length then amplitude + |channelData.getD index 0|
      else amplitude)
    0) / (spf : ℚ)

/-- The amplitude rule exactly as claim C5 states it: the mean of
`|sample|` over the half-open window
`[i * samplesPerFrame, (i+1) * samplesPerFrame)` with
`samplesPerFrame = round(sampleRate / F)`, missing samples contributing
zero. Stated from the claim's words, for comparison with
`frameAmplitude`. -/
def frameAmplitudeClaim (channelData : List ℚ) (sampleRate frameRate i : ℕ) : ℚ :=
  let spf : ℕ := (round ((sampleRate : ℚ) / (frameRate : ℚ))).toNat
  (∑ j ∈ Finset.range spf, |channelData.getD (i * spf + j) 0|) / (spf : ℚ)

/-! ## Frame scheduler -/

/-- The frame-count computation of `generateLipSync`:
`const duration = Math.max(videoDuration, audioDuration);
const frameCount = Math.ceil(duration * frameRate);`
(the source fixes `frameRate = 30`; kept as a parameter). -/
def frameCountOf (videoDuration audioDuration : ℚ) (frameRate : ℕ) : ℤ :=
  let duration := max videoDuration audioDuration
  ⌈duration * (frameRate : ℚ)⌉

/-- The `animate` loop of `simulateLipSync` (media.ts), driven by the audio
element: at the top of each tick `c` it checks
`if (audioElement.ended || audioElement.paused) { mediaRecorder.stop();
return; }` and otherwise draws frame `c` and schedules the next tick.
`stopAt c` is that check at tick `c`; `some c` is the loop stopping the
recorder with exactly `c` frames captured (the recording then resolves
normally through `onstop`); `none` means the fuel ran out with the loop
still running. -/
def runAnimate (stopAt : ℕ → Bool) : ℕ → ℕ → Option ℕ
  | 0, _ => none
  | fuel + 1, captured =>
    if stopAt captured then some captured
    else runAnimate stopAt fuel (captured + 1)

/-! ## Recording sink -/

/-- The `ondataavailable` handler, folded over the sequence of data events:
`if (e.data.size > 0) { chunks.push(e.data); }` — each event's data is its
byte list. -/
def recorderChunks (events : List (List ℕ)) : List (List ℕ) :=
  events.foldl (fun chunks e => if 0 < e.length then chunks ++ [e] else chunks) []

/-- The `onstop` handler: `const videoBlob = new Blob(chunks, ...);
resolve(videoBlob);` — it always resolves with the concatenation of the
buffered chunks; there is no error branch. `Except` carries the
hypothetical failure message so that the absence of the error outcome is
expressible. -/
def finishRecording (events : List (List ℕ)) : Except String (List ℕ) :=
  Except.ok (recorderChunks events).flatten

/-! ## Helper lemmas -/

/-- The extractor's guarded accumulation loop equals a `Finset.range` sum of
`getD` values: an index past the end of the buffer contributes `getD`'s
default `0`. -/
theorem foldl_absSum (l : List ℚ) (start : ℕ) (n : ℕ) :
    (List.range n).foldl
      (fun amplitude j =>
        let index := start + j
        if index < l.length then amplitude + |l.getD index 0| else amplitude)
      0 =
    ∑ j ∈ Finset.range n, |l.getD (start + j) 0| := by
  induction n with
  | zero => simp
  | succ n ih =>
    rw [List.range_succ, List.foldl_append, ih, Finset.sum_range_succ]
    simp only [List.foldl_cons, List.foldl_nil]
    split
    · rfl
    · rw [List.getD_eq_default _ _ (by omega)]
      simp

/-- Folding the `ondataavailable` handler over the events appends exactly
the nonempty ones. -/
theorem recorderChunks_eq_filter (events : List (List ℕ)) :
    recorderChunks events = events.filter fun e => decide (0 < e.length) := by
  have h : ∀ (l : List (List ℕ)) (acc : List (List ℕ)),
      l.foldl (fun chunks e => if 0 < e.length then chunks ++ [e] else chunks) acc =
        acc ++ l.filter (fun e => decide (0 < e.length)) := by
    intro l
    induction l with
    | nil => simp
    | cons e t ih =>
      intro acc
      by_cases he : 0 < e.length
      · simp [List.filter_cons, he, ih]
      · simp [List.filter_cons, he, ih]
  unfold recorderChunks
  simpa using h events []

/-- One unfolding step of the `animate` loop while fuel remains. -/
theorem runAnimate_succ (stopAt : ℕ → Bool) (fuel captured : ℕ) :
    runAnimate stopAt (fuel + 1) captured =
      if stopAt captured then some captured
      else runAnimate stopAt fuel (captured + 1) := rfl

/-- The `animate` loop, entered at tick `c`, stops with exactly `n` frames
captured when the audio first signals ended/paused at tick `n`. -/
theorem runAnimate_stops (stopAt : ℕ → Bool) (n : ℕ) (hstop : stopAt n = true) :
    ∀ fuel c, c ≤ n → (∀ i, c ≤ i → i < n → stopAt i = false) →
      n - c < fuel → runAnimate stopAt fuel c = some n := by
  intro fuel
  induction fuel with
  | zero => intro c _ _ h3; omega
  | succ fuel ih =>
    intro c hc hfalse hlt
    rw [runAnimate_succ]
    by_cases hcn : c = n
    · subst hcn
      rw [hstop]
      simp
    · have hf : stopAt c = false := hfalse c le_rfl (by omega)
      rw [hf]
      simp only [Bool.false_eq_true, if_false]
      exact ih (c + 1) (by omega) (fun i hi1 hi2 => hfalse i (by omega) hi2) (by omega)

/-! ## Claim theorems -/

/-- C6: for every video duration, audio duration and frame rate `F`, the
scheduler plans `frameCount = ⌈max(videoDuration, audioDuration) * F⌉`
frames; in particular `videoDuration = 1.7`, `audioDuration = 2.0`,
`F = 30` gives `frameCount = 60`. -/
theorem frameCount_formula :
    (∀ (vd ad : ℚ) (F : ℕ), frameCountOf vd ad F = ⌈max vd ad * (F : ℚ)⌉) ∧
    frameCountOf (1.7 : ℚ) (2.0 : ℚ) 30 = 60 := by
  constructor
  · intro vd ad F
    rfl
  · with_unfolding_all decide

/-- C5 counterexample: on the buffer `[0, 1, 0]` with `sampleRate = 3` and
frame rate `F = 2`, the code's frame-0 amplitude (`samplesPerFrame =
⌊3/2⌋ = 1`, window `[0, 1)`, mean `0`) differs from the claim's
(`samplesPerFrame = round(3/2) = 2`, window `[0, 2)`, mean `1/2`). -/
theorem frameAmplitude_cx :
    frameAmplitude [0, 1, 0] 3 2 0 ≠ frameAmplitudeClaim [0, 1, 0] 3 2 0 := by
  with_unfolding_all decide

/-- C5 amended: the amplitude for frame `i` is the sum of `|sample|` over
the half-open window starting at `⌊i * sampleRate / F⌋` of length
`samplesPerFrame = ⌊sampleRate / F⌋` (floor, not round), divided by the
full `samplesPerFrame`; samples past the end of the buffer contribute
zero (`getD` default) and the computation is total — no error is
raised. -/
theorem frameAmplitude_eq_mean (channelData : List ℚ) (sampleRate frameRate i : ℕ) :
    frameAmplitude channelData sampleRate frameRate i =
      (∑ j ∈ Finset.range (samplesPerFrame sampleRate frameRate),
        |channelData.getD (audioSampleIndex i sampleRate frameRate + j) 0|) /
      (samplesPerFrame sampleRate frameRate : ℚ) := by
  unfold frameAmplitude
  dsimp only
  rw [foldl_absSum]

/-- C9 counterexample: with zero output bytes (no data events), finishing
the recording resolves with the empty container — it does not fail with
`RecordingError`. -/
theorem finishRecording_cx : finishRecording [] = Except.ok [] := rfl

/-- C9 amended: `finish()` always resolves with the concatenation of the
buffered nonempty chunks — the empty container when zero bytes were
produced — and never fails with a `RecordingError`. -/
theorem finishRecording_resolves (events : List (List ℕ)) :
    finishRecording events =
      Except.ok ((events.filter fun e => decide (0 < e.length)).flatten) := by
  unfold finishRecording
  rw [recorderChunks_eq_filter]

/-- C8: if the driving audio signals ended/paused for the first time at
tick `n`, the `animate` loop stops right there and the job finalizes with
exactly the `n` frames captured so far, resolving normally (truncation is
not an error); in particular with video duration 3.0, audio duration 1.0
and `F = 30` the formula gives `frameCount = 90`, yet audio ending at
frame 30 finalizes with exactly 30 captured frames. -/
theorem animate_truncation (stopAt : ℕ → Bool) (n fuel : ℕ)
    (hbefore : ∀ i, i < n → stopAt i = false) (hstop : stopAt n = true)
    (hfuel : n < fuel) :
    runAnimate stopAt fuel 0 = some n ∧
    frameCountOf (3.0 : ℚ) (1.0 : ℚ) 30 = 90 ∧
    runAnimate (fun i => decide (30 ≤ i)) 91 0 = some 30 := by
  refine ⟨?_, by with_unfolding_all decide, by decide⟩
  exact runAnimate_stops stopAt n hstop fuel 0 (by omega)
    (fun i _ hi => hbefore i hi) (by omega)

/-- Witness for C8: the loop with audio ending at tick 5 and fuel 10. -/
theorem animate_truncation_witness :
    ((fun i => decide (5 ≤ i)) 5 = true) ∧ (5 < 10) ∧
    (runAnimate (fun i => decide (5 ≤ i)) 10 0 = some 5 ∧
      frameCountOf (3.0 : ℚ) (1.0 : ℚ) 30 = 90 ∧
      runAnimate (fun i => decide (30 ≤ i)) 91 0 = some 30) :=
  ⟨by decide, by decide,
    animate_truncation (fun i => decide (5 ≤ i)) 5 10 (by decide) (by decide) (by decide)⟩

/-- The profile intensity multiplier is positive. -/
theorem intensity_pos (p : LipSyncProfile) : 0 < intensity p := by
  cases p <;> with_unfolding_all decide

/-- The effective amplitude is nonnegative for nonnegative amplitudes. -/
theorem effectiveAmplitude_nonneg (p : LipSyncProfile) {a : ℚ} (ha : 0 ≤ a) :
    0 ≤ effectiveAmplitude a p := by
  unfold effectiveAmplitude normalizedAmplitude
  exact mul_nonneg (le_min zero_le_one (by positivity)) (intensity_pos p).le

/-- The effective amplitude is monotone in the amplitude for a fixed
profile. -/
theorem effectiveAmplitude_mono (p : LipSyncProfile) {a b : ℚ} (hab : a ≤ b) :
    effectiveAmplitude a p ≤ effectiveAmplitude b p := by
  unfold effectiveAmplitude normalizedAmplitude
  exact mul_le_mul_of_nonneg_right (min_le_min le_rfl (by linarith)) (intensity_pos p).le

/-- C2 counterexample: under the `default` profile, amplitude `0.1` gives
`effectiveAmplitude = 0.5` and `openFactor = sin(π/2) * 0.7 = 0.7`, while
the larger amplitude `0.2` gives `effectiveAmplitude = 1` and
`openFactor = sin(π) * 0.7 = 0` — the continuous rule decreases, so it is
not monotonic non-decreasing. -/
theorem mapper_continuous_cx :
    Real.sin ((effectiveAmplitude (0.2 : ℚ) LipSyncProfile.default : ℝ) * Real.pi) * 0.7 <
      Real.sin ((effectiveAmplitude (0.1 : ℚ) LipSyncProfile.default : ℝ) * Real.pi) * 0.7 := by
  have h1 : effectiveAmplitude (0.1 : ℚ) LipSyncProfile.default = 1 / 2 := by
    with_unfolding_all decide
  have h2 : effectiveAmplitude (0.2 : ℚ) LipSyncProfile.default = 1 := by
    with_unfolding_all decide
  rw [h1, h2]
  push_cast
  rw [one_mul, Real.sin_pi]
  have hh : ((1 : ℝ) / 2) * Real.pi = Real.pi / 2 := by ring
  rw [hh, Real.sin_pi_div_two]
  norm_num

/-- C2 amended: for a fixed profile the bucketed rule is monotonic
non-decreasing in the amplitude over all amplitudes, and the continuous
rule `openFactor = sin(effectiveAmplitude * π) * 0.7` is monotonic
non-decreasing only on the range where the effective amplitude stays at or
below `1/2` (the sine peak); beyond it the rule decreases. -/
theorem mapper_monotonicity (a b : ℚ) (p : LipSyncProfile)
    (ha : 0 ≤ a) (hab : a ≤ b) :
    mouthStateRank (mouthPositionFor a) ≤ mouthStateRank (mouthPositionFor b) ∧
    (effectiveAmplitude b p ≤ 1 / 2 →
      Real.sin ((effectiveAmplitude a p : ℝ) * Real.pi) * 0.7 ≤
        Real.sin ((effectiveAmplitude b p : ℝ) * Real.pi) * 0.7) := by
  constructor
  · unfold mouthPositionFor
    split_ifs <;> simp [mouthStateRank] <;> linarith
  · intro hb
    have h0 : 0 ≤ effectiveAmplitude a p := effectiveAmplitude_nonneg p ha
    have hmono : effectiveAmplitude a p ≤ effectiveAmplitude b p :=
      effectiveAmplitude_mono p hab
    have hpi := Real.pi_pos
    have hx0 : (0 : ℝ) ≤ (effectiveAmplitude a p : ℝ) := by exact_mod_cast h0
    have hxy : ((effectiveAmplitude a p : ℚ) : ℝ) ≤ (effectiveAmplitude b p : ℝ) := by
      exact_mod_cast hmono
    have hy2 : ((effectiveAmplitude b p : ℚ) : ℝ) ≤ 1 / 2 := by
      have h' := (Rat.cast_le (K := ℝ)).mpr hb
      simpa using h'
    have hs : Real.sin ((effectiveAmplitude a p : ℝ) * Real.pi) ≤
        Real.sin ((effectiveAmplitude b p : ℝ) * Real.pi) := by
      apply Real.sin_le_sin_of_le_of_le_pi_div_two
      · nlinarith
      · nlinarith
      · nlinarith
    linarith

/-- Witness for C2 amended, at `a = 0`, `b = 0.1`, `p = default`. -/
theorem mapper_monotonicity_witness :
    ((0 : ℚ) ≤ 0) ∧ ((0 : ℚ) ≤ 0.1) ∧
    (mouthStateRank (mouthPositionFor 0) ≤ mouthStateRank (mouthPositionFor 0.1) ∧
      (effectiveAmplitude (0.1 : ℚ) LipSyncProfile.default ≤ 1 / 2 →
        Real.sin ((effectiveAmplitude (0 : ℚ) LipSyncProfile.default : ℝ) * Real.pi) * 0.7 ≤
          Real.sin ((effectiveAmplitude (0.1 : ℚ) LipSyncProfile.default : ℝ) * Real.pi) * 0.7)) :=
  ⟨le_rfl, by with_unfolding_all decide,
    mapper_monotonicity 0 0.1 LipSyncProfile.default le_rfl (by with_unfolding_all decide)⟩

/-- C7: for channel values in `[0, 255]` (as canvas image data always is),
the compositor's per-pixel rule is exactly the claimed rule — pixels at
Euclidean distance `≥ 0.5 * regionHeight` from the region center are
unchanged; nearer pixels are darkened (`× 0.5` on every color channel)
when `distance < 0.2 * regionHeight * openFactor`, else lip-highlighted
(`r × 1.2`, `g,b × 0.8`) when the row is within `± 10 * effectiveAmplitude`
rows of the vertical center, else unchanged — with every channel result
clamped to `[0, 255]`, and the output channels stay in `[0, 255]`. -/
theorem compositor_pixel_rule (mw mh : ℕ) (of ea : ℚ) (x y : ℕ) (p : Pixel)
    (hp : pixelInRange p) :
    lipSyncPixel mw mh of ea x y p = lipSyncPixelClaim mw mh of ea x y p ∧
    pixelInRange (lipSyncPixel mw mh of ea x y p) := by
  obtain ⟨⟨hr0, hr1⟩, ⟨hg0, hg1⟩, ⟨hb0, hb1⟩, ⟨ha0, ha1⟩⟩ := hp
  unfold lipSyncPixel lipSyncPixelClaim
  dsimp only
  split_ifs with h1 h2 h3
  · -- darken branch
    constructor
    · unfold clamp255
      have er : max 0 (p.r * 0.5) ≤ 255 := by
        rw [max_le_iff]
        constructor <;> nlinarith
      have eg : max 0 (p.g * 0.5) ≤ 255 := by
        rw [max_le_iff]
        constructor <;> nlinarith
      have eb : max 0 (p.b * 0.5) ≤ 255 := by
        rw [max_le_iff]
        constructor <;> nlinarith
      rw [min_eq_right er, min_eq_right eg, min_eq_right eb]
    · refine ⟨⟨le_max_left _ _, ?_⟩, ⟨le_max_left _ _, ?_⟩, ⟨le_max_left _ _, ?_⟩,
        ha0, ha1⟩ <;> (rw [max_le_iff]; constructor <;> nlinarith)
  · -- lip-highlight branch
    constructor
    · unfold clamp255
      have er : max 0 (p.r * 1.2) = p.r * 1.2 := max_eq_right (by nlinarith)
      have eg : max 0 (p.g * 0.8) ≤ 255 := by
        rw [max_le_iff]
        constructor <;> nlinarith
      have eb : max 0 (p.b * 0.8) ≤ 255 := by
        rw [max_le_iff]
        constructor <;> nlinarith
      rw [er, min_eq_right eg, min_eq_right eb]
    · refine ⟨⟨le_min (by nlinarith) (by nlinarith), min_le_left _ _⟩,
        ⟨le_max_left _ _, ?_⟩, ⟨le_max_left _ _, ?_⟩, ha0, ha1⟩ <;>
        (rw [max_le_iff]; constructor <;> nlinarith)
  · -- inside the disc but neither branch: unchanged
    exact ⟨rfl, ⟨hr0, hr1⟩, ⟨hg0, hg1⟩, ⟨hb0, hb1⟩, ha0, ha1⟩
  · -- outside the disc: unchanged
    exact ⟨rfl, ⟨hr0, hr1⟩, ⟨hg0, hg1⟩, ⟨hb0, hb1⟩, ha0, ha1⟩

/-- Witness for C7, at a concrete region, factors and pixel. -/
theorem compositor_pixel_rule_witness :
    pixelInRange ⟨10, 20, 30, 255⟩ ∧
    (lipSyncPixel 10 10 (1 / 2) 1 5 6 ⟨10, 20, 30, 255⟩ =
        lipSyncPixelClaim 10 10 (1 / 2) 1 5 6 ⟨10, 20, 30, 255⟩ ∧
      pixelInRange (lipSyncPixel 10 10 (1 / 2) 1 5 6 ⟨10, 20, 30, 255⟩)) :=
  ⟨by with_unfolding_all decide,
    compositor_pixel_rule 10 10 (1 / 2) 1 5 6 ⟨10, 20, 30, 255⟩
      (by with_unfolding_all decide)⟩

/-- The encoder's derived quantities (`blockAlign = numChannels * 16/8`,
`dataSize = samples * blockAlign`, byte rate) coincide with the §4.6 table
values, so the encoder output splits as the table header followed by the
channel-0 PCM bytes and the zero padding of the never-written channel
slots. -/
theorem wav_split (ch sr : ℕ) (buffer : List ℚ) :
    audioBufferToWav ch sr buffer =
      wavHeaderTable ch sr buffer.length ++
      ((buffer.map fun s => int16leBytes (quantizeSample s)).flatten ++
        List.replicate (buffer.length * ch * 2 - buffer.length * 2) 0) := by
  unfold audioBufferToWav wavHeaderTable
  dsimp only
  simp [List.append_assoc, Nat.mul_assoc]

/-- The §4.6 header is exactly 44 bytes long. -/
theorem wavHeaderTable_length (ch sr n : ℕ) : (wavHeaderTable ch sr n).length = 44 := by
  simp [wavHeaderTable, riffMarker, waveMarker, fmtMarker, dataMarker, u32le, u16le]

/-- The PCM body holds two bytes per input sample. -/
theorem pcmBytes_length (buffer : List ℚ) :
    ((buffer.map fun s => int16leBytes (quantizeSample s)).flatten).length =
      buffer.length * 2 := by
  induction buffer with
  | nil => simp
  | cons s t ih =>
    rw [List.map_cons, List.flatten_cons, List.length_append, ih, List.length_cons]
    have h2 : (int16leBytes (quantizeSample s)).length = 2 := rfl
    rw [h2]
    ring

/-- Reading a u16 below the end of the left list ignores the right list. -/
theorem readU16_append (l l' : List ℕ) (off : ℕ) (h : off + 2 ≤ l.length) :
    readU16 (l ++ l') off = readU16 l off := by
  unfold readU16
  rw [List.getD_append _ _ _ _ (by omega), List.getD_append _ _ _ _ (by omega)]

/-- Reading a u32 below the end of the left list ignores the right list. -/
theorem readU32_append (l l' : List ℕ) (off : ℕ) (h : off + 4 ≤ l.length) :
    readU32 (l ++ l') off = readU32 l off := by
  unfold readU32
  rw [List.getD_append _ _ _ _ (by omega), List.getD_append _ _ _ _ (by omega),
    List.getD_append _ _ _ _ (by omega), List.getD_append _ _ _ _ (by omega)]

/-- C3 counterexample: encoding 16000 mono zero samples at
`sampleRate = 16000` gives `ChunkSize = 36 + 32000 = 32036` at bytes 4–7,
not the claimed `36032` (transposed digits). -/
theorem wav_header_16k_cx :
    readU32 (audioBufferToWav 1 16000 (List.replicate 16000 (0 : ℚ))) 4 ≠ 36032 := by
  rw [wav_split]
  rw [readU32_append _ _ _ (by rw [wavHeaderTable_length]; omega)]
  rw [List.length_replicate]
  decide

/-- C3 amended: encoding exactly 16000 mono samples at
`sampleRate = 16000` yields a header whose little-endian fields read back
as `ChunkSize = 32036` (bytes 4–7, `36 + Subchunk2Size`),
`NumChannels = 1` (bytes 22–23), `SampleRate = 16000` (bytes 24–27) and
`Subchunk2Size = 32000` (bytes 40–43). -/
theorem wav_header_16k (samples : List ℚ) (h : samples.length = 16000) :
    readU32 (audioBufferToWav 1 16000 samples) 4 = 32036 ∧
    readU16 (audioBufferToWav 1 16000 samples) 22 = 1 ∧
    readU32 (audioBufferToWav 1 16000 samples) 24 = 16000 ∧
    readU32 (audioBufferToWav 1 16000 samples) 40 = 32000 := by
  rw [wav_split, h]
  have h44 := wavHeaderTable_length 1 16000 16000
  refine ⟨?_, ?_, ?_, ?_⟩
  · rw [readU32_append _ _ _ (by omega)]
    decide
  · rw [readU16_append _ _ _ (by omega)]
    decide
  · rw [readU32_append _ _ _ (by omega)]
    decide
  · rw [readU32_append _ _ _ (by omega)]
    decide

/-- Witness for C3: 16000 zero samples. -/
theorem wav_header_16k_witness :
    (List.replicate 16000 (0 : ℚ)).length = 16000 ∧
    (readU32 (audioBufferToWav 1 16000 (List.replicate 16000 (0 : ℚ))) 4 = 32036 ∧
      readU16 (audioBufferToWav 1 16000 (List.replicate 16000 (0 : ℚ))) 22 = 1 ∧
      readU32 (audioBufferToWav 1 16000 (List.replicate 16000 (0 : ℚ))) 24 = 16000 ∧
      readU32 (audioBufferToWav 1 16000 (List.replicate 16000 (0 : ℚ))) 40 = 32000) :=
  ⟨List.length_replicate 16000 0, wav_header_16k (List.replicate 16000 0) (List.length_replicate 16000 0)⟩

/-- C4 counterexample: for `numChannels = 2` and the one-sample input
`[1]`, the encoder writes only the single channel-0 sample and leaves the
second int16 slot zero (bytes 46–47 are `0, 0`), while the claimed layout
fills all `N * numChannels` slots with quantized samples (bytes 46–47
would be `50, 115`, the little-endian encoding of 29490). -/
theorem wav_layout_cx :
    audioBufferToWav 2 16000 [1] ≠ wavBytesClaim 2 16000 [1] := by
  with_unfolding_all decide

/-- C4 amended: for `numChannels ≥ 1` the encoder returns exactly
`44 + N * numChannels * 2` bytes; the first 44 are the §4.6 header with
all the table's field values; the data section holds the `N` channel-0
samples as little-endian int16 (each clamped to `[-1,1]`, scaled by `0.9`,
then quantized by `× 0x8000` if negative and `× 0x7FFF` otherwise),
followed by `N * (numChannels - 1)` zero-filled int16 slots that are never
written; the header-declared byte counts agree with the data-section
length. -/
theorem wav_layout (ch sr : ℕ) (buffer : List ℚ) (hch : 1 ≤ ch) :
    (audioBufferToWav ch sr buffer).length = 44 + buffer.length * ch * 2 ∧
    (audioBufferToWav ch sr buffer).take 44 = wavHeaderTable ch sr buffer.length ∧
    (audioBufferToWav ch sr buffer).drop 44 =
      (buffer.map fun s => int16leBytes (quantizeSample s)).flatten ++
        List.replicate (buffer.length * ch * 2 - buffer.length * 2) 0 := by
  have h44 := wavHeaderTable_length ch sr buffer.length
  have hpcm := pcmBytes_length buffer
  have hle : buffer.length * 2 ≤ buffer.length * ch * 2 :=
    Nat.mul_le_mul_right 2 (Nat.le_mul_of_pos_right buffer.length (by omega))
  refine ⟨?_, ?_, ?_⟩
  · rw [wav_split, List.length_append, List.length_append, h44, hpcm,
      List.length_replicate, Nat.add_sub_cancel' hle]
  · rw [wav_split]
    exact List.take_left' h44
  · rw [wav_split]
    exact List.drop_left' h44

/-- Witness for C4 amended: two channels, two samples. -/
theorem wav_layout_witness :
    1 ≤ 2 ∧
    ((audioBufferToWav 2 4 [1, -(1 / 2)]).length =
        44 + ([1, -(1 / 2)] : List ℚ).length * 2 * 2 ∧
      (audioBufferToWav 2 4 [1, -(1 / 2)]).take 44 =
        wavHeaderTable 2 4 ([1, -(1 / 2)] : List ℚ).length ∧
      (audioBufferToWav 2 4 [1, -(1 / 2)]).drop 44 =
        (([1, -(1 / 2)] : List ℚ).map fun s => int16leBytes (quantizeSample s)).flatten ++
          List.replicate (([1, -(1 / 2)] : List ℚ).length * 2 * 2 -
            ([1, -(1 / 2)] : List ℚ).length * 2) 0) :=
  ⟨by decide, wav_layout 2 4 [1, -(1 / 2)] (by decide)⟩

/-- Mono encoding has no padding: the output is the header followed by
exactly the PCM bytes. -/
theorem wav_split_mono (sr : ℕ) (samples : List ℚ) :
    audioBufferToWav 1 sr samples =
      wavHeaderTable 1 sr samples.length ++
        (samples.map fun s => int16leBytes (quantizeSample s)).flatten := by
  rw [wav_split]
  simp

/-- The quantized sample value always fits in a signed 16-bit integer:
the clamp to `[-1, 1]` and the `0.9` volume keep it within
`[-29491, 29490]`. -/
theorem quantizeSample_bounds (s : ℚ) :
    -32768 ≤ quantizeSample s ∧ quantizeSample s < 32768 := by
  unfold quantizeSample
  dsimp only
  have hlo : -1 ≤ max (-1 : ℚ) (min 1 s) := le_max_left _ _
  have hhi : max (-1 : ℚ) (min 1 s) ≤ 1 := by
    rw [max_le_iff]
    exact ⟨by norm_num, min_le_left _ _⟩
  set c : ℚ := max (-1) (min 1 s) with hc
  unfold jsTrunc
  split
  · -- quantized with the 0x8000 branch
    split
    · constructor
      · have h1 : (-32768 : ℚ) ≤ c * 0.9 * 0x8000 := by nlinarith
        have h2 := Int.le_ceil (c * 0.9 * 0x8000)
        have : ((-32768 : ℤ) : ℚ) ≤ (⌈c * 0.9 * 0x8000⌉ : ℚ) := by
          push_cast
          linarith
        exact_mod_cast this
      · have h1 : c * 0.9 * 0x8000 ≤ 32767 := by nlinarith
        have h2 : (⌈c * 0.9 * 0x8000⌉ : ℤ) ≤ 32767 := by
          rw [Int.ceil_le]
          push_cast
          linarith
        omega
    · constructor
      · have h1 : (-32768 : ℚ) ≤ c * 0.9 * 0x8000 := by nlinarith
        have h2 : ((-32768 : ℤ) : ℚ) ≤ (⌊c * 0.9 * 0x8000⌋ : ℚ) ∨ True := Or.inr trivial
        have h3 : (-32768 : ℤ) ≤ ⌊c * 0.9 * 0x8000⌋ := by
          rw [Int.le_floor]
          push_cast
          linarith
        exact h3
      · have h1 : c * 0.9 * 0x8000 ≤ 32767 := by nlinarith
        have h2 : (⌊c * 0.9 * 0x8000⌋ : ℤ) ≤ 32767 := by
          have := Int.floor_le (c * 0.9 * 0x8000)
          have : (⌊c * 0.9 * 0x8000⌋ : ℚ) ≤ 32767 := by linarith
          exact_mod_cast this
        omega
  · -- quantized with the 0x7FFF branch
    split
    · constructor
      · have h1 : (-32768 : ℚ) ≤ c * 0.9 * 0x7FFF := by nlinarith
        have h3 : (-32768 : ℤ) ≤ ⌈c * 0.9 * 0x7FFF⌉ := by
          have h2 := Int.le_ceil (c * 0.9 * 0x7FFF)
          have : ((-32768 : ℤ) : ℚ) ≤ (⌈c * 0.9 * 0x7FFF⌉ : ℚ) := by
            push_cast
            linarith
          exact_mod_cast this
        exact h3
      · have h1 : c * 0.9 * 0x7FFF ≤ 32767 := by nlinarith
        have h2 : (⌈c * 0.9 * 0x7FFF⌉ : ℤ) ≤ 32767 := by
          rw [Int.ceil_le]
          push_cast
          linarith
        omega
    · constructor
      · have h1 : (-32768 : ℚ) ≤ c * 0.9 * 0x7FFF := by nlinarith
        have h3 : (-32768 : ℤ) ≤ ⌊c * 0.9 * 0x7FFF⌋ := by
          rw [Int.le_floor]
          push_cast
          linarith
        exact h3
      · have h1 : c * 0.9 * 0x7FFF ≤ 32767 := by nlinarith
        have h2 : (⌊c * 0.9 * 0x7FFF⌋ : ℚ) ≤ 32767 := by
          have := Int.floor_le (c * 0.9 * 0x7FFF)
          linarith
        have : (⌊c * 0.9 * 0x7FFF⌋ : ℤ) ≤ 32767 := by exact_mod_cast h2
        omega

/-- Storing an in-range int16 as two little-endian bytes and reading it
back is the identity. -/
theorem toInt16_bytes (v : ℤ) (h1 : -32768 ≤ v) (h2 : v < 32768) :
    toInt16 ((v % 65536).toNat % 256 + 256 * ((v % 65536).toNat / 256)) = v := by
  unfold toInt16
  split <;> omega

/-- Parsing the encoder's PCM byte stream recovers the dequantization of
each quantized sample. -/
theorem parsePcm_encode (samples : List ℚ) :
    parsePcm ((samples.map fun s => int16leBytes (quantizeSample s)).flatten) =
      samples.map fun s => dequantizeSample (quantizeSample s) := by
  induction samples with
  | nil => rfl
  | cons s t ih =>
    rw [List.map_cons, List.flatten_cons]
    have hb : int16leBytes (quantizeSample s) =
        [(quantizeSample s % 65536).toNat % 256, (quantizeSample s % 65536).toNat / 256] := rfl
    rw [hb, List.cons_append, List.cons_append, List.nil_append]
    simp only [parsePcm]
    obtain ⟨hq1, hq2⟩ := quantizeSample_bounds s
    rw [toInt16_bytes _ hq1 hq2, ih, List.map_cons]

/-- Bytes 40–43 of the encoder output read back as `Subchunk2Size` modulo
`2^32`. -/
theorem wav_readU32_40 (ch sr n : ℕ) (rest : List ℕ) :
    readU32 (wavHeaderTable ch sr n ++ rest) 40 = (n * ch * 2) % 2 ^ 32 := by
  rw [readU32_append _ _ _ (by rw [wavHeaderTable_length])]
  simp only [wavHeaderTable, riffMarker, waveMarker, fmtMarker, dataMarker, u32le, u16le,
    readU32, List.cons_append, List.nil_append]
  simp only [List.getD_cons_succ, List.getD_cons_zero]
  omega

/-- The four marker fields of the encoder output validate. -/
theorem wav_markers (ch sr n : ℕ) (rest : List ℕ) :
    (wavHeaderTable ch sr n ++ rest).take 4 = riffMarker ∧
    ((wavHeaderTable ch sr n ++ rest).drop 8).take 4 = waveMarker ∧
    ((wavHeaderTable ch sr n ++ rest).drop 12).take 4 = fmtMarker ∧
    ((wavHeaderTable ch sr n ++ rest).drop 36).take 4 = dataMarker := by
  simp only [wavHeaderTable, riffMarker, waveMarker, fmtMarker, dataMarker, u32le, u16le,
    List.cons_append, List.nil_append]
  refine ⟨rfl, rfl, rfl, rfl⟩

/-- Decoding the mono encoder output parses back exactly the quantized
samples. -/
theorem wavDecode_encode (sr : ℕ) (samples : List ℚ)
    (hlen : samples.length * 2 < 2 ^ 32) :
    wavDecode (audioBufferToWav 1 sr samples) =
      some (samples.map fun s => dequantizeSample (quantizeSample s)) := by
  rw [wav_split_mono]
  unfold wavDecode
  rw [if_pos (wav_markers 1 sr samples.length _)]
  rw [wav_readU32_40]
  rw [List.drop_left' (wavHeaderTable_length 1 sr samples.length)]
  have hsz : samples.length * 1 * 2 % 2 ^ 32 = samples.length * 2 := by
    rw [Nat.mul_one]
    exact Nat.mod_eq_of_lt hlen
  rw [hsz]
  rw [← pcmBytes_length samples, List.take_length]
  rw [parsePcm_encode]

/-- If the quantized value is nonpositive, both dequantization branches
agree with division by `0x8000`. -/
theorem dequantizeSample_nonpos (v : ℤ) (hv : v ≤ 0) :
    dequantizeSample v = (v : ℚ) / 0x8000 := by
  unfold dequantizeSample
  split
  · rfl
  · have h0 : v = 0 := by omega
    subst h0
    norm_num

/-- If the quantized value is nonnegative, dequantization divides by
`0x7FFF`. -/
theorem dequantizeSample_nonneg (v : ℤ) (hv : 0 ≤ v) :
    dequantizeSample v = (v : ℚ) / 0x7FFF := by
  unfold dequantizeSample
  rw [if_neg (by omega)]

/-- Per-sample round-trip error bound: dequantizing the quantized sample
lands within one quantization step (`1/32767`, the coarser positive-branch
step) of the volume-scaled original. -/
theorem dequantize_quantize_close (s : ℚ) (hs : |s| ≤ 1) :
    |dequantizeSample (quantizeSample s) - 0.9 * s| ≤ 1 / 32767 := by
  obtain ⟨hs2, hs1⟩ := abs_le.mp hs
  have hclamp : max (-1 : ℚ) (min 1 s) = s := by
    rw [min_eq_right hs1, max_eq_right hs2]
  unfold quantizeSample
  dsimp only
  rw [hclamp]
  unfold jsTrunc
  by_cases hneg : s * (0.9 : ℚ) < 0
  · rw [if_pos hneg]
    have hx : s * 0.9 * 0x8000 < 0 := by nlinarith
    rw [if_pos hx]
    have hq0 : ⌈s * 0.9 * 0x8000⌉ ≤ 0 := by
      rw [Int.ceil_le]
      push_cast
      linarith
    rw [dequantizeSample_nonpos _ hq0]
    have hc1 : (⌈s * 0.9 * 0x8000⌉ : ℚ) < s * 0.9 * 0x8000 + 1 := by
      exact_mod_cast Int.ceil_lt_add_one (s * 0.9 * 0x8000)
    have hc2 : s * 0.9 * 0x8000 ≤ (⌈s * 0.9 * 0x8000⌉ : ℚ) := Int.le_ceil _
    rw [abs_le]
    constructor <;> [skip; skip] <;> nlinarith
  · rw [if_neg hneg]
    have hx : 0 ≤ s * 0.9 * 0x7FFF := by nlinarith
    rw [if_neg (by nlinarith : ¬ s * 0.9 * 0x7FFF < 0)]
    have hq0 : 0 ≤ ⌊s * 0.9 * 0x7FFF⌋ := by
      rw [Int.le_floor]
      push_cast
      linarith
    rw [dequantizeSample_nonneg _ hq0]
    have hf1 : (⌊s * 0.9 * 0x7FFF⌋ : ℚ) ≤ s * 0.9 * 0x7FFF := Int.floor_le _
    have hf2 : s * 0.9 * 0x7FFF - 1 < (⌊s * 0.9 * 0x7FFF⌋ : ℚ) := Int.sub_one_lt_floor _
    rw [abs_le]
    constructor <;> nlinarith

/-- C1 counterexample: the sample `1` encodes (clamped, scaled by `0.9`,
quantized) to `29490` and decodes to `29490/32767 ≈ 0.8999`, which is
more than one quantization step (`1/32768`) away from the original `1` —
the `0.9` output volume makes the stated round-trip bound fail. -/
theorem wav_roundtrip_cx :
    wavDecode (audioBufferToWav 1 16000 [1]) = some [(29490 : ℚ) / 32767] ∧
    1 / 32768 < |(29490 : ℚ) / 32767 - 1| := by
  have hq : quantizeSample 1 = 29490 := by
    unfold quantizeSample jsTrunc
    norm_num
  have hd : dequantizeSample 29490 = (29490 : ℚ) / 32767 := by
    unfold dequantizeSample
    norm_num
  constructor
  · rw [wavDecode_encode 16000 [1] (by norm_num), List.map_cons, List.map_nil, hq, hd]
  · rw [abs_sub_comm, abs_of_nonneg (by norm_num : (0 : ℚ) ≤ 1 - 29490 / 32767)]
    norm_num

/-- C1 amended: decoding the mono encoder output succeeds (markers
validate) and yields one float per input sample, each within one
quantization step (`1/32767`) of `0.9` times the original sample, for
samples in `[-1, 1]`. -/
theorem wav_roundtrip_amended (sampleRate : ℕ) (samples : List ℚ)
    (hlen : samples.length * 2 < 2 ^ 32) :
    wavDecode (audioBufferToWav 1 sampleRate samples) =
      some (samples.map fun s => dequantizeSample (quantizeSample s)) ∧
    ∀ s : ℚ, |s| ≤ 1 → |dequantizeSample (quantizeSample s) - 0.9 * s| ≤ 1 / 32767 :=
  ⟨wavDecode_encode sampleRate samples hlen,
    fun s hs => dequantize_quantize_close s hs⟩

/-- Witness for C1 amended: the one-sample buffer `[1/2]`. -/
theorem wav_roundtrip_amended_witness :
    ([(1 : ℚ) / 2].length * 2 < 2 ^ 32) ∧
    (wavDecode (audioBufferToWav 1 8 [(1 : ℚ) / 2]) =
        some ([(1 : ℚ) / 2].map fun s => dequantizeSample (quantizeSample s)) ∧
      ∀ s : ℚ, |s| ≤ 1 → |dequantizeSample (quantizeSample s) - 0.9 * s| ≤ 1 / 32767) :=
  ⟨by decide, wav_roundtrip_amended 8 [(1 : ℚ) / 2] (by decide)⟩

end DeepReal
